import Mathlib

/-!
Shallow embedding of the `bo` editor core: the `Document` edit operations
(src/document.rs) and the terminal coordinate transform pair
(src/terminal.rs).  Machine integers are modelled as `Nat`, with explicit
saturation (`min`) where the source uses `saturating_add`, `Nat`
subtraction for `saturating_sub` (which already floors at zero), and an
explicit `% 2^w` where the source performs plain (wrapping) machine
arithmetic or an `as` cast.
-/

namespace Bo

/-- `usize::MAX` on a 64-bit target. -/
def USIZE_MAX : Nat := 2 ^ 64 - 1

/-- `usize::saturating_add`. -/
def usatAdd (a b : Nat) : Nat := min (a + b) USIZE_MAX

/-- `u8::saturating_add`. -/
def u8satAdd (a b : Nat) : Nat := min (a + b) 255

/-- Modelled from the spec: the external `Row` contract (spec §6); the Row
type's source file is not under src/.  A row is one line of text; the
`string` field is the one assigned in `Document::delete_row`. -/
structure Row where
  string : List Char
deriving DecidableEq

namespace Row

/-- Modelled from the spec: `fromText(s) -> Row`, construction from a line of
text. -/
def fromText (s : List Char) : Row := ⟨s⟩

/-- `Row::default()`: an empty row. -/
def default : Row := ⟨[]⟩

/-- Modelled from the spec: `len() -> count`. -/
def len (r : Row) : Nat := r.string.length

/-- Modelled from the spec: `insert(index, char)`; the row is "responsible
for its own bounds clamping" (spec §4.1), so an index past the end appends. -/
def insert (r : Row) (i : Nat) (c : Char) : Row :=
  ⟨r.string.take i ++ c :: r.string.drop i⟩

/-- Modelled from the spec: `delete(index)`; an out-of-range index is a no-op
(spec §7: bounds conditions are no-ops, never errors). -/
def delete (r : Row) (i : Nat) : Row := ⟨r.string.eraseIdx i⟩

/-- Modelled from the spec: `split(index) -> Row` returns the tail and
mutates self to the head; modelled as returning the pair (head, tail). -/
def split (r : Row) (i : Nat) : Row × Row :=
  (⟨r.string.take i⟩, ⟨r.string.drop i⟩)

/-- Modelled from the spec: `append(other: Row)` concatenates other's content
onto self. -/
def append (r other : Row) : Row := ⟨r.string ++ other.string⟩

end Row

/-- Modelled from the spec: the `Position` value type (spec §3); its source
file is not under src/.  Field types follow their use in terminal.rs: `x`
and `y` are `usize`, `x_offset` is `u8` (a well-formed value has
`x_offset < 256`). -/
structure Position where
  x : Nat
  y : Nat
  x_offset : Nat
deriving DecidableEq

/-- Modelled from the spec: `Position::top_left()`, the fixed top-left
logical position. -/
def Position.top_left : Position := ⟨0, 0, 0⟩

/-- `Document` (src/document.rs): an ordered sequence of rows plus a file
name. -/
structure Document where
  rows : List Row
  filename : List Char
deriving DecidableEq

namespace Document

/-- `Document::num_rows`. -/
def num_rows (d : Document) : Nat := d.rows.length

/-- `Document::is_empty`: true only when the row count is exactly 0. -/
def is_empty (d : Document) : Bool := d.rows.length == 0

/-- `Document::get_row`. -/
def get_row (d : Document) (index : Nat) : Option Row := d.rows[index]?

/-- Sum of the rows' character counts (the "total character count across the
buffer" of spec §8). -/
def total_chars (d : Document) : Nat := (d.rows.map Row.len).sum

/-- `Document::insert` (document.rs lines 108-121): `match y.cmp(&num_rows)`,
on `Equal | Greater` push a fresh row holding only `c`, on `Less` insert into
row `y` in place. -/
def insert (d : Document) (c : Char) (x y : Nat) : Document :=
  if y < d.num_rows then
    match d.rows[y]? with
    | some row => { d with rows := d.rows.set y (row.insert x c) }
    | none => d
  else
    { d with rows := d.rows ++ [Row.default.insert 0 c] }

/-- `Document::delete` (document.rs lines 123-136).  `rows.remove(y)` both
returns row `y` and deletes it: modelled as the pair of `d.rows[y]?` (in
bounds here, the guard `y >= num_rows` has already returned) and
`eraseIdx`. -/
def delete (d : Document) (x y : Nat) : Document :=
  if y ≥ d.num_rows then d
  else if x = 0 ∧ y > 0 then
    match d.rows[y]? with
    | some current_row =>
      let rest := d.rows.eraseIdx y
      match rest[y - 1]? with
      | some previous_row =>
        { d with rows := rest.set (y - 1) (previous_row.append current_row) }
      | none => { d with rows := rest }
    | none => d
  else
    match d.rows[y]? with
    | some row => { d with rows := d.rows.set y (row.delete (x - 1)) }
    | none => d

/-- `Document::insert_newline` (document.rs lines 138-157).  `split` mutates
row `y` to the head and returns the tail, which is then inserted at
`y.saturating_add(1)`. -/
def insert_newline (d : Document) (x y : Nat) : Document :=
  if y > d.num_rows then d
  else
    match d.rows[y]? with
    | some current_row =>
      if x < current_row.len - 1 then
        let split_row := (current_row.split x).2
        { d with rows :=
            (d.rows.set y (current_row.split x).1).insertIdx (usatAdd y 1) split_row }
      else
        let new_row := Row.default
        if y = d.num_rows ∨ usatAdd y 1 = d.num_rows then
          { d with rows := d.rows ++ [new_row] }
        else
          { d with rows := d.rows.insertIdx (usatAdd y 1) new_row }
    | none => d

/-- `Document::delete_row` (document.rs lines 159-168). -/
def delete_row (d : Document) (pos : Position) : Document :=
  if pos.y > d.num_rows then d
  else if d.num_rows = 1 then
    match d.rows[0]? with
    | some row => { d with rows := d.rows.set 0 { row with string := [] } }
    | none => d
  else if (d.rows[pos.y]?).isSome then
    { d with rows := d.rows.eraseIdx pos.y }
  else d

end Document

/-- The pure core of `Document::open` (document.rs lines 45-55): Rust's
`str::lines`.  Lines are split at `'\n'`; a `"\r\n"` terminator is also
recognised (the `'\r'` is stripped); the final line terminator is optional;
the empty string yields no lines. -/
def rustLines : List Char → List (List Char)
  | [] => []
  | '\r' :: '\n' :: cs => [] :: rustLines cs
  | '\n' :: cs => [] :: rustLines cs
  | c :: cs =>
    match rustLines cs with
    | [] => [[c]]
    | l :: ls => (c :: l) :: ls

/-- The pure core of `Document::open` given the file's contents (the
`fs::read_to_string` I/O is outside the embedding): one `Row` per line of
the contents. -/
def Document.open_from_contents (contents : List Char) (filename : List Char) :
    Document :=
  { rows := (rustLines contents).map Row.fromText, filename := filename }

/-- `Size` (terminal.rs lines 11-15): `height` and `width` are `u16`. -/
structure Size where
  height : Nat
  width : Nat
deriving DecidableEq

/-- The `termion::event::MouseEvent` cases consumed by
`get_cursor_index_from_mouse_event`: only `Press` carries coordinates that
are used; the coordinates are `u16`. -/
inductive MouseEvent where
  | press (button x y : Nat)
  | release (x y : Nat)
  | hold (x y : Nat)
deriving DecidableEq

/-- `Terminal::set_cursor_position` (terminal.rs lines 79-92), returning the
physical `(x, y)` passed to `termion::cursor::Goto`.  The first step,
`x_offset += if x_offset > 0 { 1 } else { 0 }`, is a plain `u8` addition
(wrapping in release builds, modelled as `% 256`); the remaining additions
are `saturating_add` on `usize`; the final `as u16` casts are `% 2^16`. -/
def set_cursor_position (size : Size) (position : Position) : Nat × Nat :=
  let x_offset :=
    if position.x_offset > 0 then (position.x_offset + 1) % 256
    else position.x_offset
  let x := usatAdd position.x 1
  let x := min (usatAdd x x_offset) size.width
  let y := usatAdd position.y 1
  let y := min y size.height
  (x % 65536, y % 65536)

/-- `Terminal::get_cursor_index_from_mouse_event` (terminal.rs lines
94-111).  `x_offset` is a `u8`; the event coordinates are `u16`;
`saturating_sub` on `Nat` is plain subtraction. -/
def get_cursor_index_from_mouse_event (mouse_event : MouseEvent)
    (x_offset : Nat) : Position :=
  match mouse_event with
  | .press _ x y =>
    let offset_adjustment := if x_offset > 0 then u8satAdd x_offset 1 else 0
    { x := x - 1 - offset_adjustment, y := y - 1, x_offset := x_offset }
  | _ => Position.top_left

namespace Document

/-- `Document::insert` with each internal row-sequence access made explicit:
`none` when the `get_mut` in the `Less` branch misses (its silent no-op
branch would only be reachable out of bounds). -/
def insert_checked (d : Document) (c : Char) (x y : Nat) : Option Document :=
  if y < d.num_rows then
    match d.rows[y]? with
    | some row => some { d with rows := d.rows.set y (row.insert x c) }
    | none => none
  else
    some { d with rows := d.rows ++ [Row.default.insert 0 c] }

/-- `Document::delete` with each internal row-sequence access made explicit:
`none` when `rows.remove(y)` would panic (index out of bounds) or when the
`get_mut(y - 1)` lookup of the previous row misses. -/
def delete_checked (d : Document) (x y : Nat) : Option Document :=
  if y ≥ d.num_rows then some d
  else if x = 0 ∧ y > 0 then
    match d.rows[y]? with
    | some current_row =>
      let rest := d.rows.eraseIdx y
      match rest[y - 1]? with
      | some previous_row =>
        some { d with rows := rest.set (y - 1) (previous_row.append current_row) }
      | none => none
    | none => none
  else
    match d.rows[y]? with
    | some row => some { d with rows := d.rows.set y (row.delete (x - 1)) }
    | none => none

/-- `Document::insert_newline` with the two `rows.insert` call sites bounds
checked: `none` when `Vec::insert` would panic (index past the length).  The
`get_mut(y)` miss at `y == num_rows` is the designed no-op of spec §4.1, not
an error branch. -/
def insert_newline_checked (d : Document) (x y : Nat) : Option Document :=
  if y > d.num_rows then some d
  else
    match d.rows[y]? with
    | some current_row =>
      if x < current_row.len - 1 then
        let split_row := (current_row.split x).2
        let head_rows := d.rows.set y (current_row.split x).1
        if usatAdd y 1 ≤ head_rows.length then
          some { d with rows := head_rows.insertIdx (usatAdd y 1) split_row }
        else none
      else
        if y = d.num_rows ∨ usatAdd y 1 = d.num_rows then
          some { d with rows := d.rows ++ [Row.default] }
        else
          if usatAdd y 1 ≤ d.rows.length then
            some { d with rows := d.rows.insertIdx (usatAdd y 1) Row.default }
          else none
    | none => some d

/-- `Document::delete_row` with each internal access made explicit: `none`
when the `get_mut(0)` of the single-row branch misses or when
`rows.remove(at.y)` would panic; the `get(at.y)` miss falls through to the
designed no-op. -/
def delete_row_checked (d : Document) (pos : Position) : Option Document :=
  if pos.y > d.num_rows then some d
  else if d.num_rows = 1 then
    match d.rows[0]? with
    | some row => some { d with rows := d.rows.set 0 { row with string := [] } }
    | none => none
  else if (d.rows[pos.y]?).isSome then
    if pos.y < d.rows.length then some { d with rows := d.rows.eraseIdx pos.y }
    else none
  else some d

end Document

end Bo

namespace Bo

/-- C7: for every document, character `c`, `x`, and `y >= numRows()`,
`insert(c, x, y)` appends one brand-new row whose content is exactly the
single character `c`, ignoring `x`; all pre-existing rows are unchanged. -/
theorem insert_past_end_appends (d : Document) (c : Char) (x y : Nat)
    (hy : d.num_rows ≤ y) :
    (d.insert c x y).rows = d.rows ++ [⟨[c]⟩] := by
  unfold Document.insert
  rw [if_neg (by omega)]
  rfl

/-- Witness for `insert_past_end_appends` at `y = numRows` on a one-row
document. -/
theorem insert_past_end_appends_witness :
    Document.num_rows ⟨[⟨['a']⟩], []⟩ ≤ 1 ∧
      (Document.insert ⟨[⟨['a']⟩], []⟩ 'b' 5 1).rows = [⟨['a']⟩] ++ [⟨['b']⟩] :=
  ⟨by decide, insert_past_end_appends ⟨[⟨['a']⟩], []⟩ 'b' 5 1 (by decide)⟩

/-- C8: on a document consisting of exactly one row whose content is empty,
`delete(0, 0)` is a no-op: the document is unchanged and the row count stays
at 1. -/
theorem delete_origin_single_empty_row_noop (fn : List Char) :
    Document.delete ⟨[⟨[]⟩], fn⟩ 0 0 = ⟨[⟨[]⟩], fn⟩ ∧
      (Document.delete ⟨[⟨[]⟩], fn⟩ 0 0).num_rows = 1 :=
  ⟨rfl, rfl⟩

/-- C9: `open` splits the file's text into lines, one `Row` per line (row
`i` is built from line `i`, and the row count is the line count); empty
contents yield zero rows and `is_empty`. -/
theorem open_from_contents_rows (contents fn : List Char) :
    (Document.open_from_contents contents fn).num_rows =
        (rustLines contents).length ∧
      (∀ i : Nat, (Document.open_from_contents contents fn).rows[i]? =
        ((rustLines contents)[i]?).map Row.fromText) ∧
      (Document.open_from_contents [] fn).num_rows = 0 ∧
      (Document.open_from_contents [] fn).is_empty = true := by
  refine ⟨by simp [Document.open_from_contents, Document.num_rows], ?_, rfl, rfl⟩
  intro i
  simp [Document.open_from_contents]

/-- C3 (refuted by the code, see RESULTS): the offset adjustment
`x_offset += 1` in `set_cursor_position` is a plain `u8` addition, not a
saturating one.  At `x_offset = 254` the physical column includes the full
adjustment (`256`); at `x_offset = 255 = u8::MAX` the addition wraps to `0`
(release builds; debug builds panic) and the column collapses to `1`,
instead of saturating at `255`/`256`. -/
theorem cursor_offset_adjustment_wraps_at_255 :
    set_cursor_position ⟨50, 1000⟩ ⟨0, 0, 254⟩ = (256, 1) ∧
      set_cursor_position ⟨50, 1000⟩ ⟨0, 0, 255⟩ = (1, 1) := by
  constructor <;> rfl

end Bo

namespace Bo

/-- C6: `delete_row(pos)` is a no-op when `pos.y > numRows()`; otherwise on a
document with exactly one row it clears that row's content and keeps
`numRows() == 1`; otherwise, when a row exists at `pos.y`, it removes that
row and shifts the subsequent rows up by one index. -/
theorem delete_row_cases (d : Document) (pos : Position) :
    (d.num_rows < pos.y → d.delete_row pos = d) ∧
      (pos.y ≤ d.num_rows → d.num_rows = 1 →
        (d.delete_row pos).rows = [⟨[]⟩] ∧ (d.delete_row pos).num_rows = 1) ∧
      (pos.y ≤ d.num_rows → d.num_rows ≠ 1 → (d.rows[pos.y]?).isSome →
        (d.delete_row pos).num_rows = d.num_rows - 1 ∧
          (∀ i : Nat, i < pos.y → (d.delete_row pos).rows[i]? = d.rows[i]?) ∧
          (∀ i : Nat, pos.y ≤ i → (d.delete_row pos).rows[i]? = d.rows[i + 1]?)) := by
  refine ⟨fun h => ?_, fun h1 h2 => ?_, fun h1 h2 h3 => ?_⟩
  · simp [Document.delete_row, h]
  · obtain ⟨r, hr⟩ := List.length_eq_one.mp h2
    unfold Document.delete_row
    rw [if_neg (by omega), if_pos h2]
    simp [hr, Document.num_rows]
  · have hlt : pos.y < d.rows.length := by
      rcases Nat.lt_or_ge pos.y d.rows.length with h | h
      · exact h
      · rw [List.getElem?_eq_none h] at h3; simp at h3
    unfold Document.delete_row
    rw [if_neg (by omega), if_neg h2, if_pos h3]
    refine ⟨?_, fun i hi => ?_, fun i hi => ?_⟩
    · simp [Document.num_rows, List.length_eraseIdx_of_lt hlt]
    · exact List.getElem?_eraseIdx_of_lt _ _ _ hi
    · exact List.getElem?_eraseIdx_of_ge _ _ _ hi

/-- Witness for `delete_row_cases`: `deleteRow({y:0})` on the single-row
document `["x"]` clears the row to `[""]`, and on a two-row document the
`y > numRows` case is a no-op. -/
theorem delete_row_cases_witness :
    ((0 : Nat) ≤ Document.num_rows ⟨[⟨['x']⟩], []⟩ ∧
        Document.num_rows ⟨[⟨['x']⟩], []⟩ = 1 ∧
        (Document.delete_row ⟨[⟨['x']⟩], []⟩ ⟨0, 0, 0⟩).rows = [⟨[]⟩] ∧
        (Document.delete_row ⟨[⟨['x']⟩], []⟩ ⟨0, 0, 0⟩).num_rows = 1) ∧
      (Document.num_rows ⟨[⟨['a']⟩, ⟨['b']⟩], []⟩ < 3 ∧
        Document.delete_row ⟨[⟨['a']⟩, ⟨['b']⟩], []⟩ ⟨0, 3, 0⟩ =
          ⟨[⟨['a']⟩, ⟨['b']⟩], []⟩) := by
  refine ⟨⟨by decide, by decide, ?_⟩, ⟨by decide, ?_⟩⟩
  · exact (delete_row_cases ⟨[⟨['x']⟩], []⟩ ⟨0, 0, 0⟩).2.1 (by decide) (by decide)
  · exact (delete_row_cases ⟨[⟨['a']⟩, ⟨['b']⟩], []⟩ ⟨0, 3, 0⟩).1 (by decide)

/-- C1: starting from any non-empty document, each of the four edit
operations leaves the document with `numRows() >= 1`, for all argument
values. -/
theorem edit_ops_preserve_nonempty (d : Document) (c : Char) (x y : Nat)
    (pos : Position) (h : 1 ≤ d.num_rows) :
    1 ≤ (d.insert c x y).num_rows ∧ 1 ≤ (d.delete x y).num_rows ∧
      1 ≤ (d.insert_newline x y).num_rows ∧ 1 ≤ (d.delete_row pos).num_rows := by
  simp only [Document.num_rows] at h ⊢
  refine ⟨?_, ?_, ?_, ?_⟩
  · unfold Document.insert
    split
    · split <;> simp_all [Document.num_rows]
    · simp [Document.num_rows]
  · unfold Document.delete
    split
    · exact h
    · split
      · split
        · dsimp only
          split <;> simp_all [Document.num_rows, List.length_eraseIdx] <;> omega
        · exact h
      · split <;> simp_all [Document.num_rows]
  · unfold Document.insert_newline
    split
    · exact h
    · split
      · split
        · calc 1 ≤ d.rows.length := h
            _ = (d.rows.set y _).length := (List.length_set _ _ _).symm
            _ ≤ _ := List.length_le_length_insertIdx _ _ _
        · split
          · simp [Document.num_rows]
          · calc 1 ≤ d.rows.length := h
              _ ≤ _ := List.length_le_length_insertIdx _ _ _
      · exact h
  · unfold Document.delete_row
    split
    · exact h
    · split
      · split <;> simp_all [Document.num_rows]
      · split
        · rename_i hno h1 hsome
          have hlt : pos.y < d.rows.length := by
            rcases Nat.lt_or_ge pos.y d.rows.length with hh | hh
            · exact hh
            · rw [List.getElem?_eq_none hh] at hsome; simp at hsome
          simp only [Document.num_rows] at h1 hno
          simp [Document.num_rows, List.length_eraseIdx_of_lt hlt]
          omega
        · exact h

/-- Witness for `edit_ops_preserve_nonempty` on the one-row document
`["a"]`. -/
theorem edit_ops_preserve_nonempty_witness :
    1 ≤ Document.num_rows ⟨[⟨['a']⟩], []⟩ ∧
      (1 ≤ (Document.insert ⟨[⟨['a']⟩], []⟩ 'z' 0 0).num_rows ∧
        1 ≤ (Document.delete ⟨[⟨['a']⟩], []⟩ 0 0).num_rows ∧
        1 ≤ (Document.insert_newline ⟨[⟨['a']⟩], []⟩ 0 0).num_rows ∧
        1 ≤ (Document.delete_row ⟨[⟨['a']⟩], []⟩ ⟨0, 0, 0⟩).num_rows) :=
  ⟨by decide, edit_ops_preserve_nonempty ⟨[⟨['a']⟩], []⟩ 'z' 0 0 ⟨0, 0, 0⟩ (by decide)⟩

end Bo

namespace Bo

/-- C4: for `0 < y < numRows()`, `delete(0, y)` removes row `y`, merging its
content onto the end of row `y - 1` (rows before `y - 1` and after `y` are
untouched), decreases `numRows()` by one, and preserves the total character
count of the buffer. -/
theorem delete_merge_correct (d : Document) (y : Nat)
    (h0 : 0 < y) (hy : y < d.num_rows) :
    (d.delete 0 y).rows =
        d.rows.take (y - 1) ++
          (d.rows.get ⟨y - 1, by simp only [Document.num_rows] at hy; omega⟩).append
              (d.rows.get ⟨y, hy⟩) ::
            d.rows.drop (y + 1) ∧
      (d.delete 0 y).num_rows = d.num_rows - 1 ∧
      (d.delete 0 y).total_chars = d.total_chars := by
  obtain ⟨k, rfl⟩ : ∃ k, y = k + 1 := ⟨y - 1, by omega⟩
  have hyl : k + 1 < d.rows.length := hy
  have hk : k < d.rows.length := by omega
  have hrows : (d.delete 0 (k + 1)).rows =
      d.rows.take k ++
        (d.rows.get ⟨k, hk⟩).append (d.rows.get ⟨k + 1, hyl⟩) ::
          d.rows.drop (k + 2) := by
    unfold Document.delete
    rw [if_neg (by simp only [Document.num_rows]; omega),
      if_pos ⟨rfl, Nat.succ_pos k⟩, List.getElem?_eq_getElem hyl]
    dsimp only
    simp only [Nat.add_sub_cancel]
    have he : (d.rows.eraseIdx (k + 1))[k]? = some (d.rows.get ⟨k, hk⟩) := by
      rw [List.getElem?_eraseIdx_of_lt _ _ _ (Nat.lt_succ_self k),
        List.getElem?_eq_getElem hk]
      simp
    rw [he]
    dsimp only
    rw [List.eraseIdx_eq_take_drop_succ,
      List.set_append_left _ _ (by simp [List.length_take]; omega),
      List.set_eq_take_cons_drop _ (by simp [List.length_take]; omega),
      List.take_take, List.drop_take]
    simp [Nat.min_eq_left (Nat.le_succ k)]
  refine ⟨hrows, ?_, ?_⟩
  · simp only [Document.num_rows, hrows]
    simp [List.length_take, List.length_drop]
    omega
  · have hsplit : d.rows =
        d.rows.take k ++
          d.rows.get ⟨k, hk⟩ :: d.rows.get ⟨k + 1, hyl⟩ :: d.rows.drop (k + 2) := by
      have h1 : d.rows.drop k = d.rows.get ⟨k, hk⟩ :: d.rows.drop (k + 1) := by
        rw [List.get_eq_getElem]
        exact (List.getElem_cons_drop d.rows k hk).symm
      have h2 : d.rows.drop (k + 1) =
          d.rows.get ⟨k + 1, hyl⟩ :: d.rows.drop (k + 2) := by
        rw [List.get_eq_getElem]
        exact (List.getElem_cons_drop d.rows (k + 1) hyl).symm
      conv_lhs => rw [← List.take_append_drop k d.rows, h1, h2]
    simp only [Document.total_chars, hrows]
    conv_rhs => rw [hsplit]
    simp only [List.map_append, List.map_cons, List.sum_append, List.sum_cons,
      Row.append, Row.len, List.length_append, List.get_eq_getElem]
    omega

/-- Witness for `delete_merge_correct`: `delete(0, 1)` on `["c", "ab"]`
yields `["cab"]` with one fewer row and the same character count. -/
theorem delete_merge_correct_witness :
    (0 : Nat) < 1 ∧ 1 < Document.num_rows ⟨[⟨['c']⟩, ⟨['a', 'b']⟩], []⟩ ∧
      (Document.delete ⟨[⟨['c']⟩, ⟨['a', 'b']⟩], []⟩ 0 1).rows =
        [⟨['c', 'a', 'b']⟩] ∧
      (Document.delete ⟨[⟨['c']⟩, ⟨['a', 'b']⟩], []⟩ 0 1).num_rows = 1 ∧
      (Document.delete ⟨[⟨['c']⟩, ⟨['a', 'b']⟩], []⟩ 0 1).total_chars =
        Document.total_chars ⟨[⟨['c']⟩, ⟨['a', 'b']⟩], []⟩ := by
  have h := delete_merge_correct ⟨[⟨['c']⟩, ⟨['a', 'b']⟩], []⟩ 1 (by decide) (by decide)
  refine ⟨by decide, by decide, ?_, ?_, h.2.2⟩
  · rw [h.1]; rfl
  · rw [h.2.1]; rfl

end Bo

namespace Bo

/-- C5: for `y < numRows()` and `x` strictly below `len(row_y) - 1`
(saturating), `insert_newline(x, y)` increases `numRows()` by exactly one,
row `y` becomes the first `x` characters of the original row, row `y + 1`
the remaining characters, and their concatenation reproduces the original
row's content with nothing lost or duplicated.  (`num_rows <= usize::MAX`
records that the row sequence is a Rust `Vec`, so `y.saturating_add(1)`
cannot saturate.) -/
theorem insert_newline_split_correct (d : Document) (x y : Nat)
    (hy : y < d.num_rows) (hbound : d.num_rows ≤ USIZE_MAX)
    (hx : x < (d.rows.get ⟨y, hy⟩).len - 1) :
    (d.insert_newline x y).num_rows = d.num_rows + 1 ∧
      (d.insert_newline x y).rows[y]? =
        some ⟨(d.rows.get ⟨y, hy⟩).string.take x⟩ ∧
      (d.insert_newline x y).rows[y + 1]? =
        some ⟨(d.rows.get ⟨y, hy⟩).string.drop x⟩ ∧
      (d.rows.get ⟨y, hy⟩).string.take x ++ (d.rows.get ⟨y, hy⟩).string.drop x =
        (d.rows.get ⟨y, hy⟩).string := by
  have hyl : y < d.rows.length := hy
  have hMAX : USIZE_MAX = 18446744073709551615 := by norm_num [USIZE_MAX]
  have husat : usatAdd y 1 = y + 1 := by
    have : d.num_rows ≤ 18446744073709551615 := hMAX ▸ hbound
    simp only [Document.num_rows] at this
    unfold usatAdd
    rw [hMAX]
    omega
  have hres : (d.insert_newline x y).rows =
      (d.rows.set y ⟨(d.rows.get ⟨y, hyl⟩).string.take x⟩).insertIdx (y + 1)
        ⟨(d.rows.get ⟨y, hyl⟩).string.drop x⟩ := by
    unfold Document.insert_newline
    rw [if_neg (by simp only [Document.num_rows] at hy ⊢; omega),
      List.getElem?_eq_getElem hyl]
    dsimp only
    rw [if_pos (by simpa [List.get_eq_getElem] using hx), husat]
    simp [Row.split, List.get_eq_getElem]
  have hlen : ((d.rows.set y ⟨(d.rows.get ⟨y, hyl⟩).string.take x⟩).insertIdx (y + 1)
      ⟨(d.rows.get ⟨y, hyl⟩).string.drop x⟩).length = d.rows.length + 1 := by
    rw [List.length_insertIdx _ _ (by simp; omega)]
    simp
  refine ⟨?_, ?_, ?_, List.take_append_drop x _⟩
  · simp only [Document.num_rows, hres, hlen]
  · rw [hres, List.getElem?_eq_getElem (by rw [hlen]; omega)]
    rw [List.getElem_insertIdx_of_lt _ _ _ _ (Nat.lt_succ_self y) (by simp; omega)]
    rw [List.getElem_set_self]
  · rw [hres, List.getElem?_eq_getElem (by rw [hlen]; omega)]
    rw [List.getElem_insertIdx_self _ _ _ (by simp; omega)]

/-- Witness for `insert_newline_split_correct`: `insertNewline(1, 0)` on
`["cab"]` yields `["c", "ab"]`. -/
theorem insert_newline_split_correct_witness :
    (0 : Nat) < Document.num_rows ⟨[⟨['c', 'a', 'b']⟩], []⟩ ∧
      Document.num_rows ⟨[⟨['c', 'a', 'b']⟩], []⟩ ≤ USIZE_MAX ∧
      (1 : Nat) < Row.len ⟨['c', 'a', 'b']⟩ - 1 ∧
      (Document.insert_newline ⟨[⟨['c', 'a', 'b']⟩], []⟩ 1 0).num_rows = 2 ∧
      (Document.insert_newline ⟨[⟨['c', 'a', 'b']⟩], []⟩ 1 0).rows[0]? =
        some ⟨['c']⟩ ∧
      (Document.insert_newline ⟨[⟨['c', 'a', 'b']⟩], []⟩ 1 0).rows[1]? =
        some ⟨['a', 'b']⟩ := by
  have h := insert_newline_split_correct ⟨[⟨['c', 'a', 'b']⟩], []⟩ 1 0
    (by decide) (by decide) (by decide)
  refine ⟨by decide, by decide, by decide, ?_, ?_, ?_⟩
  · rw [h.1]; decide
  · rw [h.2.1]; decide
  · rw [h.2.2.1]; decide

end Bo

namespace Bo

/-- C2 (amended: `x_offset < 255`): for any logical position with
`x_offset` below `u8::MAX` and any terminal size representable in `u16` and
large enough that neither min-clamp applies, feeding the physical pair
computed by `set_cursor_position` into `get_cursor_index_from_mouse_event`
as a press event with the same `x_offset` returns the position exactly —
both for `x_offset = 0` and for `x_offset > 0`.  At `x_offset = 255` the
forward adjustment wraps and the round trip fails
(`mouse_roundtrip_fails_at_offset_255`). -/
theorem mouse_roundtrip_of_offset_lt_255 (p : Position) (sz : Size) (b : Nat)
    (hoff : p.x_offset < 255) (hw : sz.width < 65536) (hh : sz.height < 65536)
    (hx : p.x + 1 + (if 0 < p.x_offset then p.x_offset + 1 else 0) ≤ sz.width)
    (hy : p.y + 1 ≤ sz.height) :
    get_cursor_index_from_mouse_event
        (MouseEvent.press b (set_cursor_position sz p).1
          (set_cursor_position sz p).2) p.x_offset = p := by
  obtain ⟨px, py, po⟩ := p
  simp only at hoff hx hy
  have hinv : ∀ X Y : Nat,
      get_cursor_index_from_mouse_event (MouseEvent.press b X Y) po =
        ⟨X - 1 - (if 0 < po then u8satAdd po 1 else 0), Y - 1, po⟩ :=
    fun _ _ => rfl
  have hfwd : set_cursor_position sz ⟨px, py, po⟩ =
      (px + 1 + (if 0 < po then po + 1 else 0), py + 1) := by
    rcases Nat.eq_zero_or_pos po with h0 | h0
    · subst h0
      simp only [Nat.lt_irrefl, reduceIte] at hx ⊢
      simp only [set_cursor_position, usatAdd, USIZE_MAX, Nat.lt_irrefl,
        reduceIte, Prod.mk.injEq]
      norm_num
      exact ⟨by omega, by omega⟩
    · simp only [if_pos h0] at hx ⊢
      simp only [set_cursor_position, usatAdd, USIZE_MAX, if_pos h0,
        Prod.mk.injEq]
      norm_num
      exact ⟨by omega, by omega⟩
  rw [hfwd, hinv]
  simp only [Position.mk.injEq, u8satAdd]
  rcases Nat.eq_zero_or_pos po with h0 | h0
  · subst h0
    simp only [Nat.lt_irrefl, reduceIte]
    exact ⟨by omega, by omega, trivial⟩
  · simp only [if_pos h0]
    exact ⟨by omega, by omega, trivial⟩

/-- Witness for `mouse_roundtrip_of_offset_lt_255` at `p = {5, 3, 7}` on an
unclamped 100x50 terminal. -/
theorem mouse_roundtrip_witness :
    ((5 : Nat) + 1 + (if 0 < (7 : Nat) then 7 + 1 else 0) ≤ 100 ∧
        (3 : Nat) + 1 ≤ 50 ∧ (7 : Nat) < 255) ∧
      get_cursor_index_from_mouse_event
        (MouseEvent.press 0 (set_cursor_position ⟨50, 100⟩ ⟨5, 3, 7⟩).1
          (set_cursor_position ⟨50, 100⟩ ⟨5, 3, 7⟩).2) 7 = ⟨5, 3, 7⟩ :=
  ⟨⟨by decide, by decide, by decide⟩,
    mouse_roundtrip_of_offset_lt_255 ⟨5, 3, 7⟩ ⟨50, 100⟩ 0 (by decide)
      (by decide) (by decide) (by decide) (by decide)⟩

/-- C2 counterexample: at `x_offset = 255 = u8::MAX` the round trip fails
even though no min-clamp applies: the forward transform of `{5, 0, 255}` on
a 100x50 terminal is `(6, 1)` (the wrapped adjustment contributes nothing
and `6 <= 100`, `1 <= 50`), but the inverse maps `(6, 1)` with
`x_offset = 255` to `x = 0`, not `x = 5`. -/
theorem mouse_roundtrip_fails_at_offset_255 :
    set_cursor_position ⟨50, 100⟩ ⟨5, 0, 255⟩ = (6, 1) ∧ 6 < 100 ∧ 1 < 50 ∧
      get_cursor_index_from_mouse_event
        (MouseEvent.press 0 (set_cursor_position ⟨50, 100⟩ ⟨5, 0, 255⟩).1
          (set_cursor_position ⟨50, 100⟩ ⟨5, 0, 255⟩).2) 255 ≠
        (⟨5, 0, 255⟩ : Position) := by
  decide

end Bo

namespace Bo

/-- C10: each edit operation is total: under the guards that precede them,
every internal row-sequence index operation (`remove` at `y`, `remove` at
`at.y`, `insert` at `y + 1`, the guarded `get`/`get_mut` lookups) stays in
bounds, so the checked variants - which return `none` exactly on an
out-of-bounds `Vec::remove`/`Vec::insert` or on a guarded lookup missing -
always return the unchecked result. -/
theorem edit_ops_index_safe (d : Document) (c : Char) (x y : Nat)
    (pos : Position) :
    d.insert_checked c x y = some (d.insert c x y) ∧
      d.delete_checked x y = some (d.delete x y) ∧
      d.insert_newline_checked x y = some (d.insert_newline x y) ∧
      d.delete_row_checked pos = some (d.delete_row pos) := by
  refine ⟨?_, ?_, ?_, ?_⟩
  · unfold Document.insert_checked Document.insert
    by_cases h : y < d.num_rows
    · simp only [if_pos h]
      cases hg : d.rows[y]? with
      | some row => rfl
      | none =>
        rw [List.getElem?_eq_none_iff] at hg
        simp only [Document.num_rows] at h
        omega
    · simp only [if_neg h]
  · unfold Document.delete_checked Document.delete
    by_cases h1 : y ≥ d.num_rows
    · simp only [if_pos h1]
    · simp only [if_neg h1]
      simp only [Document.num_rows] at h1
      by_cases h2 : x = 0 ∧ y > 0
      · simp only [if_pos h2]
        cases hg : d.rows[y]? with
        | none =>
          rw [List.getElem?_eq_none_iff] at hg
          omega
        | some current_row =>
          dsimp only
          cases hg2 : (d.rows.eraseIdx y)[y - 1]? with
          | none =>
            rw [List.getElem?_eq_none_iff,
              List.length_eraseIdx_of_lt (by omega)] at hg2
            omega
          | some previous_row => rfl
      · simp only [if_neg h2]
        cases hg : d.rows[y]? with
        | some row => rfl
        | none =>
          rw [List.getElem?_eq_none_iff] at hg
          omega
  · unfold Document.insert_newline_checked Document.insert_newline
    by_cases h1 : y > d.num_rows
    · simp only [if_pos h1]
    · simp only [if_neg h1]
      cases hg : d.rows[y]? with
      | none => rfl
      | some current_row =>
        have hyl : y < d.rows.length := (List.getElem?_eq_some_iff.mp hg).1
        have hb : usatAdd y 1 ≤ d.rows.length := by
          unfold usatAdd
          exact le_trans (Nat.min_le_left _ _) hyl
        dsimp only
        by_cases h2 : x < current_row.len - 1
        · simp only [if_pos h2]
          rw [if_pos (by simp only [List.length_set]; exact hb)]
        · simp only [if_neg h2]
          by_cases h3 : y = d.num_rows ∨ usatAdd y 1 = d.num_rows
          · simp only [if_pos h3]
          · simp only [if_neg h3]
            rw [if_pos hb]
  · unfold Document.delete_row_checked Document.delete_row
    by_cases h1 : pos.y > d.num_rows
    · simp only [if_pos h1]
    · simp only [if_neg h1]
      by_cases h2 : d.num_rows = 1
      · simp only [if_pos h2]
        cases hg : d.rows[0]? with
        | some row => rfl
        | none =>
          rw [List.getElem?_eq_none_iff] at hg
          simp only [Document.num_rows] at h2
          omega
      · simp only [if_neg h2]
        by_cases h3 : (d.rows[pos.y]?).isSome
        · simp only [if_pos h3]
          have hlt : pos.y < d.rows.length := by
            rcases Nat.lt_or_ge pos.y d.rows.length with hh | hh
            · exact hh
            · rw [List.getElem?_eq_none hh] at h3; simp at h3
          rw [if_pos hlt]
        · simp only [if_neg h3]

end Bo
